import Mathlib

/-!
# Verification of the acme-azure certificate renewal orchestrator

Shallow embedding of the Go sources of `acme-azure` (version 2.0.0:
`acme.go`, `azure.go`, `notify.go` and the orchestrator/scheduler in
`main`), together with proofs of the behavioural properties stated in
the specification.

Modelling conventions:
* `time.Time` is modelled as an integer number of seconds; Go's
  `t.AddDate(0, 0, d)` becomes `addDays t d`, and `time.Now().After(u)`
  is the strict comparison `now > u`.
* Network collaborators (`azcertificates.GetCertificate`,
  `legoClient.Certificate.Obtain`, `ImportCertificate`, `smtp.SendMail`)
  are oracle inputs: their results are passed as explicit arguments.
* Go strings used as byte payloads (tokens, proofs, PEM material,
  passwords, URL paths) are modelled as `List Char`.
* PEM/X.509 parsing primitives are external libraries; their inputs are
  represented symbolically by what they decode to, so that the embedded
  control flow mirrors the source exactly.
-/

namespace AcmeAzure

/-- Byte-string payloads (Go `string` / `[]byte`). -/
abbrev Str := List Char

/-! ## Time model -/

def secondsPerDay : Int := 86400

/-- Go `t.AddDate(0, 0, d)`: shift a timestamp by `d` days. -/
def addDays (t d : Int) : Int := t + d * secondsPerDay

/-! ## Remote certificate descriptor (Azure Key Vault metadata)

`azure.go` reads `cert.Attributes` and `cert.Attributes.Expires`, both of
which may be `nil`. -/

/-- Attributes of a stored certificate; `expires` may be absent. -/
structure CertAttributes where
  expires : Option Int
deriving DecidableEq, Repr

/-- The descriptor returned by `GetCertificate`; `attributes` may be absent. -/
structure CertDescriptor where
  attributes : Option CertAttributes
deriving DecidableEq, Repr

/-- Function `checkIfRenewalNeeded` (`azure.go` lines 18–39).  The network call
`client.GetCertificate` is an oracle argument `getResult`; `now` is the value
of `time.Now()`.  Returns the `(bool, error)` pair of the Go function, with
the error modelled as `Option String`. -/
def checkIfRenewalNeeded (getResult : Except String CertDescriptor)
    (renewBeforeDays : Int) (now : Int) : Bool × Option String :=
  match getResult with
  | .error e => (true, some ("getting certificate: " ++ e))
  | .ok cert =>
    match cert.attributes with
    | none => (true, some "certificate attributes or expiration date is missing")
    | some attrs =>
      match attrs.expires with
      | none => (true, some "certificate attributes or expiration date is missing")
      | some expiresOn =>
        let renewalDate := addDays expiresOn (-renewBeforeDays)
        (decide (now > renewalDate), none)

/-- The expiration timestamp that `checkIfRenewalNeeded` extracts: `none` when
the descriptor is missing (query error), its attributes are missing, or its
expiry is missing. -/
def expiryOf : Except String CertDescriptor → Option Int
  | .error _ => none
  | .ok cert =>
    match cert.attributes with
    | none => none
    | some attrs => attrs.expires

/-- C1: `checkIfRenewalNeeded` returns `true` iff the descriptor or its expiry
is missing, or `now > expiry − leadDays` (strict); at the exact boundary
`now = expiry − leadDays` it returns `false`. -/
theorem checkIfRenewalNeeded_iff (getResult : Except String CertDescriptor)
    (leadDays now : Int) :
    ((checkIfRenewalNeeded getResult leadDays now).fst = true ↔
      (expiryOf getResult = none ∨
        ∃ e, expiryOf getResult = some e ∧ now > addDays e (-leadDays))) ∧
    (∀ e : Int,
      (checkIfRenewalNeeded (.ok ⟨some ⟨some e⟩⟩) leadDays
        (addDays e (-leadDays))).fst = false) := by
  constructor
  · match getResult with
    | .error e => simp [checkIfRenewalNeeded, expiryOf]
    | .ok cert =>
      match cert with
      | ⟨none⟩ => simp [checkIfRenewalNeeded, expiryOf]
      | ⟨some ⟨none⟩⟩ => simp [checkIfRenewalNeeded, expiryOf]
      | ⟨some ⟨some e⟩⟩ =>
        simp [checkIfRenewalNeeded, expiryOf]
  · intro e
    simp [checkIfRenewalNeeded]

/-! ## Challenge token store (`acme.go` lines 25–42)

`challengeProvider` holds `tokens map[string]string`.  The map is modelled as
a function `Str → Option Str` (Go map semantics: insert overwrites, delete of
a missing key is a no-op, read of a missing key yields the zero value `""`
with `ok = false`).  The `sync.RWMutex` serialises the operations; each
operation below is the state transformer performed under the lock.  `Present`
and `CleanUp` always return a `nil` error in the source, modelled as the
`Option String` component `none`. -/

/-- The token map of `challengeProvider`. -/
def TokenStore := Str → Option Str

/-- Operation `Present(domain, token, keyAuth)`: store `keyAuth` under `token`,
returning the new map and the (always `nil`) error. -/
def TokenStore.present (s : TokenStore) (token keyAuth : Str) :
    TokenStore × Option String :=
  (fun k => if k = token then some keyAuth else s k, none)

/-- Operation `CleanUp(domain, token, keyAuth)`: delete `token`, returning the new map
and the (always `nil`) error. -/
def TokenStore.cleanUp (s : TokenStore) (token : Str) :
    TokenStore × Option String :=
  (fun k => if k = token then none else s k, none)

/-- The read `keyAuth, ok := p.tokens[token]`: Go's comma-ok map read, with
the zero value `""` when the key is absent. -/
def TokenStore.lookup (s : TokenStore) (token : Str) : Str × Bool :=
  match s token with
  | some v => (v, true)
  | none => ([], false)

/-- C3: the token-store contract.  After `Present(t, p)`, `Lookup t` yields
`(p, true)`; a second `Present(t, p')` silently overwrites (no error);
`CleanUp` of an absent token is a no-op on the map and returns no error;
after `CleanUp t`, `Lookup t` yields `found = false`; and operations on a
different token `t'` do not disturb the entry for `t`. -/
theorem tokenStore_contract (s : TokenStore) (t t' p p' q : Str) :
    ((s.present t p).fst.lookup t = (p, true) ∧ (s.present t p).snd = none) ∧
    (((s.present t p).fst.present t p').fst.lookup t = (p', true) ∧
      ((s.present t p).fst.present t p').snd = none) ∧
    (s t = none → (s.cleanUp t).fst = s ∧ (s.cleanUp t).snd = none) ∧
    (((s.present t p).fst.cleanUp t).fst.lookup t = ([], false)) ∧
    (t' ≠ t →
      (((s.present t p).fst.present t' q).fst.lookup t = (p, true) ∧
        ((s.present t p).fst.cleanUp t').fst.lookup t = (p, true))) := by
  refine ⟨⟨?_, rfl⟩, ⟨?_, rfl⟩, ?_, ?_, ?_⟩
  · simp [TokenStore.present, TokenStore.lookup]
  · simp [TokenStore.present, TokenStore.lookup]
  · intro h
    refine ⟨funext fun k => ?_, rfl⟩
    by_cases hk : k = t
    · subst hk; simp [TokenStore.cleanUp, h]
    · simp [TokenStore.cleanUp, hk]
  · simp [TokenStore.present, TokenStore.cleanUp, TokenStore.lookup]
  · intro hne
    constructor
    · simp [TokenStore.present, TokenStore.lookup, Ne.symm hne]
    · simp [TokenStore.present, TokenStore.cleanUp, TokenStore.lookup,
        Ne.symm hne]

/-- The empty token store (initial state of `challengeProvider`). -/
def emptyStore : TokenStore := fun _ => none

/-- Witness for `tokenStore_contract` at concrete inputs. -/
theorem tokenStore_contract_witness :
    (emptyStore ['a'] = none) ∧
    (['b'] ≠ (['a'] : Str)) ∧
    ((emptyStore.cleanUp ['a']).fst = emptyStore) ∧
    (((emptyStore.present ['a'] ['x']).fst.present ['b']
        ['y']).fst.lookup ['a'] = (['x'], true)) := by
  have h := tokenStore_contract emptyStore ['a'] ['b'] ['x'] ['y'] ['y']
  refine ⟨rfl, by decide, (h.2.2.1 rfl).1, (h.2.2.2.2 (by decide)).1⟩

/-! ## HTTP challenge responder (`acme.go` lines 44–59) -/

/-- The path root `"/.well-known/acme-challenge/"`. -/
def challengeRoot : Str := "/.well-known/acme-challenge/".toList

/-- Go `strings.TrimPrefix(s, pre)`: drop `pre` when it leads `s`, otherwise
return `s` unchanged. -/
def trimLeading (s pre : Str) : Str :=
  if pre.isPrefixOf s then s.drop pre.length else s

/-- An HTTP response: status code, optional Content-Type header, body. -/
structure HTTPResponse where
  status : Nat
  contentType : Option String
  body : Str
deriving DecidableEq, Repr

/-- Response written by `http.NotFound`: 404 with Go's standard body. -/
def notFoundResponse : HTTPResponse :=
  ⟨404, some "text/plain; charset=utf-8", "404 page not found\n".toList⟩

/-- Handler `challengeProvider.ServeHTTP`: trim the challenge path root from the
request path, 404 on an empty token or a token absent from the store, and
otherwise 200 with the stored proof as the exact body. -/
def serveHTTP (tokens : TokenStore) (path : Str) : HTTPResponse :=
  let token := trimLeading path challengeRoot
  if token = [] then notFoundResponse
  else
    match tokens token with
    | none => notFoundResponse
    | some keyAuth => ⟨200, some "application/octet-stream", keyAuth⟩

/-- C4: the responder's wire contract.  A request whose token segment is
empty (path exactly the challenge root) gets 404; a present token gets 200
with body exactly the stored proof; an absent token gets 404. -/
theorem serveHTTP_contract (tokens : TokenStore) (token proof : Str) :
    ((serveHTTP tokens challengeRoot).status = 404) ∧
    (token ≠ [] → tokens token = some proof →
      serveHTTP tokens (challengeRoot ++ token) =
        ⟨200, some "application/octet-stream", proof⟩) ∧
    (token ≠ [] → tokens token = none →
      (serveHTTP tokens (challengeRoot ++ token)).status = 404) := by
  have htrim : trimLeading (challengeRoot ++ token) challengeRoot = token := by
    simp [trimLeading, List.isPrefixOf_iff_prefix, List.drop_left]
  refine ⟨?_, ?_, ?_⟩
  · have hempty : trimLeading challengeRoot challengeRoot = [] := by
      simp [trimLeading, List.isPrefixOf_iff_prefix, List.drop_length]
    simp [serveHTTP, hempty, notFoundResponse]
  · intro hne hfound
    simp [serveHTTP, htrim, hne, hfound]
  · intro hne habsent
    simp [serveHTTP, htrim, hne, habsent, notFoundResponse]

/-- A store holding a single token, for the responder witness. -/
def oneTokenStore : TokenStore :=
  fun k => if k = ['t'] then some ['p'] else none

/-- Witness for `serveHTTP_contract` at a concrete store and token. -/
theorem serveHTTP_contract_witness :
    ((['t'] : Str) ≠ []) ∧
    (oneTokenStore ['t'] = some ['p']) ∧
    serveHTTP oneTokenStore (challengeRoot ++ ['t']) =
      ⟨200, some "application/octet-stream", ['p']⟩ := by
  refine ⟨by decide, by simp [oneTokenStore], ?_⟩
  exact (serveHTTP_contract oneTokenStore ['t'] ['p']).2.1
    (by decide) (by simp [oneTokenStore])

/-! ## Bundle converter (`azure.go` lines 41–90)

`convertToPFX` uses the external parsing primitives `pem.Decode`,
`x509.ParsePKCS1PrivateKey`, `x509.ParsePKCS8PrivateKey`,
`x509.ParseCertificate` and `gopkcs12.Encode`.  Their inputs are modelled
symbolically: a key PEM input is described by whether a PEM block decodes and
what its bytes parse as, and a certificate PEM input by the sequence of PEM
blocks that decode from it, each either a well-formed X.509 certificate or
malformed.  `gopkcs12.Encode` is modelled as the construction of a `Bundle`
that records exactly the arguments the source passes to it. -/

/-- An RSA private key recovered by parsing (opaque, identified by an id). -/
structure RSAKey where
  id : Nat
deriving DecidableEq, Repr

/-- What `x509.ParsePKCS8PrivateKey` returns: some concrete key type, which
the source then type-asserts to `*rsa.PrivateKey`. -/
inductive ParsedKey
  | rsa (k : RSAKey)
  | nonRSA
deriving DecidableEq, Repr

/-- What the bytes of a decoded key PEM block parse as:
`pkcs1 k` — `ParsePKCS1PrivateKey` succeeds with `k`;
`pkcs8 pk` — PKCS#1 parsing fails and `ParsePKCS8PrivateKey` yields `pk`;
`unparsable` — both parsers fail. -/
inductive KeyBlockContent
  | pkcs1 (k : RSAKey)
  | pkcs8 (pk : ParsedKey)
  | unparsable
deriving DecidableEq, Repr

/-- A key PEM input: `none` when `pem.Decode` yields no block. -/
abbrev KeyPEM := Option KeyBlockContent

/-- An X.509 certificate (opaque, identified by an id). -/
structure Cert where
  id : Nat
deriving DecidableEq, Repr

/-- One PEM block decoded from the certificate input: either it parses as an
X.509 certificate or `x509.ParseCertificate` fails on it. -/
inductive CertBlock
  | valid (c : Cert)
  | malformed
deriving DecidableEq, Repr

/-- A certificate PEM input: the sequence of PEM blocks `pem.Decode` yields
(the loop in the source stops when no further block decodes). -/
abbrev CertPEM := List CertBlock

/-- The distinct failure exits of `convertToPFX`, one per `return nil, err`
site in the source. -/
inductive ConvError
  | malformedKey          -- "failed to decode private key PEM"
  | keyParseFailed        -- "failed to parse private key: PKCS1 ..., PKCS8 ..."
  | keyNotRSA             -- "parsed key is not RSA"
  | malformedCertificate  -- "failed to parse certificate"
  | noCertificatesFound   -- "no certificates found in PEM data"
deriving DecidableEq, Repr

/-- The error text of each failure exit, as in the source. -/
def ConvError.message : ConvError → String
  | .malformedKey => "failed to decode private key PEM"
  | .keyParseFailed => "failed to parse private key"
  | .keyNotRSA => "parsed key is not RSA"
  | .malformedCertificate => "failed to parse certificate"
  | .noCertificatesFound => "no certificates found in PEM data"

/-- The PKCS#12 bundle handed to `gopkcs12.Encode`: the private key, the leaf
certificate, the CA chain in order, and the password. -/
structure Bundle where
  privateKey : RSAKey
  leaf : Cert
  caCerts : List Cert
  password : Str
deriving DecidableEq, Repr

/-- The key-recovery phase of `convertToPFX` (source lines 47–58): try
PKCS#1, fall back to PKCS#8, and require the recovered key to be RSA. -/
def parsePrivateKey : KeyBlockContent → Except ConvError RSAKey
  | .pkcs1 k => .ok k
  | .pkcs8 (.rsa k) => .ok k
  | .pkcs8 .nonRSA => .error .keyNotRSA
  | .unparsable => .error .keyParseFailed

/-- The certificate-decoding loop of `convertToPFX` (source lines 60–73):
collect certificates in order, failing the whole operation at the first
block that does not parse as a certificate. -/
def parseCertChain : CertPEM → Except ConvError (List Cert)
  | [] => .ok []
  | .valid c :: rest =>
    match parseCertChain rest with
    | .ok cs => .ok (c :: cs)
    | .error e => .error e
  | .malformed :: _ => .error .malformedCertificate

/-- Function `convertToPFX` (`azure.go` lines 41–90). -/
def convertToPFX (certPEM : CertPEM) (keyPEM : KeyPEM) (password : Str) :
    Except ConvError Bundle :=
  match keyPEM with
  | none => .error .malformedKey
  | some kb =>
    match parsePrivateKey kb with
    | .error e => .error e
    | .ok privateKey =>
      match parseCertChain certPEM with
      | .error e => .error e
      | .ok certs =>
        match certs with
        | [] => .error .noCertificatesFound
        | leaf :: caCerts => .ok ⟨privateKey, leaf, caCerts, password⟩

/-- The decoding loop succeeds on a run of well-formed blocks, yielding the
certificates in input order. -/
theorem parseCertChain_valid (cs : List Cert) :
    parseCertChain (cs.map CertBlock.valid) = .ok cs := by
  induction cs with
  | nil => rfl
  | cons c rest ih => simp [parseCertChain, ih]

/-- The decoding loop fails with the certificate-parse error as soon as the
block sequence contains a malformed block. -/
theorem parseCertChain_malformed (pre : List Cert) (suf : CertPEM) :
    parseCertChain (pre.map CertBlock.valid ++ CertBlock.malformed :: suf) =
      .error .malformedCertificate := by
  induction pre with
  | nil => rfl
  | cons c rest ih => simp [parseCertChain, ih]

/-- C5: the converter's failure cases.  No decodable key block fails with the
malformed-key error; key bytes parsing as neither PKCS#1 nor PKCS#8, or
recovering a non-RSA key, fail with the corresponding unsupported-key errors;
a malformed certificate block fails the whole operation; zero certificates
fail with the no-certificates error.  Each case returns `.error _`, so no
bundle is produced (`Except` carries no partial output). -/
theorem convertToPFX_failures (certPEM : CertPEM) (password : Str)
    (k : RSAKey) (pre : List Cert) (suf : CertPEM) :
    (convertToPFX certPEM none password = .error .malformedKey) ∧
    (convertToPFX certPEM (some .unparsable) password =
      .error .keyParseFailed) ∧
    (convertToPFX certPEM (some (.pkcs8 .nonRSA)) password =
      .error .keyNotRSA) ∧
    (convertToPFX (pre.map CertBlock.valid ++ CertBlock.malformed :: suf)
        (some (.pkcs1 k)) password = .error .malformedCertificate) ∧
    (convertToPFX [] (some (.pkcs1 k)) password =
      .error .noCertificatesFound) := by
  refine ⟨rfl, rfl, rfl, ?_, rfl⟩
  simp [convertToPFX, parsePrivateKey, parseCertChain_malformed]

/-- C6: chain ordering.  With a well-formed key and `n ≥ 1` well-formed
certificate blocks, the first certificate becomes the leaf and the remaining
ones, in input order, become the CA chain — both for a PKCS#1 and for a
PKCS#8 RSA key. -/
theorem convertToPFX_chain_order (k : RSAKey) (c : Cert) (cs : List Cert)
    (password : Str) :
    (convertToPFX ((c :: cs).map CertBlock.valid) (some (.pkcs1 k)) password =
      .ok ⟨k, c, cs, password⟩) ∧
    (convertToPFX ((c :: cs).map CertBlock.valid) (some (.pkcs8 (.rsa k)))
        password = .ok ⟨k, c, cs, password⟩) := by
  constructor <;>
    simp [convertToPFX, parsePrivateKey, parseCertChain_valid,
      parseCertChain]

/-! ## Effect instrumentation of the converter (frame property)

To state that `convertToPFX` works entirely in memory, the embedding below
re-traverses the source body emitting one event per external-primitive call
site.  The source (`azure.go` lines 41–90) contains only calls to the
in-memory library primitives `pem.Decode`, `x509.ParsePKCS1PrivateKey`,
`x509.ParsePKCS8PrivateKey`, `x509.ParseCertificate` and `gopkcs12.Encode`;
the file-system and process effects (`os.CreateTemp`, `os.WriteFile`,
`os.ReadFile`, `exec.Command` — present in the pre-2.0.0 OpenSSL-based
converter, removed in 2.0.0 per the changelog) never occur in it. -/

/-- The kinds of external actions a converter implementation could take. -/
inductive Effect
  | pemDecodeKey        -- pem.Decode on the key input (in-memory)
  | parseKeyPKCS1       -- x509.ParsePKCS1PrivateKey (in-memory)
  | parseKeyPKCS8       -- x509.ParsePKCS8PrivateKey (in-memory)
  | pemDecodeCert       -- pem.Decode on the certificate input (in-memory)
  | parseCert           -- x509.ParseCertificate (in-memory)
  | pkcs12Encode        -- gopkcs12.Encode (in-memory)
  | createTempFile      -- os.CreateTemp
  | writeFile           -- os.WriteFile
  | readFile            -- os.ReadFile
  | removeFile          -- os.Remove
  | execProcess         -- exec.Command / cmd.CombinedOutput
deriving DecidableEq, Repr

/-- Whether an effect is a pure in-memory library call (no file system, no
subprocess). -/
def Effect.isInMemory : Effect → Bool
  | .pemDecodeKey | .parseKeyPKCS1 | .parseKeyPKCS8
  | .pemDecodeCert | .parseCert | .pkcs12Encode => true
  | _ => false

/-- Events of the key-recovery phase: PKCS#1 is always attempted; PKCS#8 only
on PKCS#1 failure. -/
def parsePrivateKeyEffects : KeyBlockContent → List Effect
  | .pkcs1 _ => [.parseKeyPKCS1]
  | .pkcs8 _ => [.parseKeyPKCS1, .parseKeyPKCS8]
  | .unparsable => [.parseKeyPKCS1, .parseKeyPKCS8]

/-- Events of the certificate-decoding loop: one `pem.Decode` per block plus
the final decode that returns no block, and one `x509.ParseCertificate` per
decoded block up to and including the first malformed one. -/
def parseCertChainEffects : CertPEM → List Effect
  | [] => [.pemDecodeCert]
  | .valid _ :: rest => .pemDecodeCert :: .parseCert :: parseCertChainEffects rest
  | .malformed :: _ => [.pemDecodeCert, .parseCert]

/-- Function `convertToPFX` instrumented with its trace of external actions, following
the source body line by line. -/
def convertToPFXEffects (certPEM : CertPEM) (keyPEM : KeyPEM) (password : Str) :
    Except ConvError Bundle × List Effect :=
  match keyPEM with
  | none => (.error .malformedKey, [.pemDecodeKey])
  | some kb =>
    match parsePrivateKey kb with
    | .error e => (.error e, .pemDecodeKey :: parsePrivateKeyEffects kb)
    | .ok privateKey =>
      let keyEffects := Effect.pemDecodeKey :: parsePrivateKeyEffects kb
      match parseCertChain certPEM with
      | .error e => (.error e, keyEffects ++ parseCertChainEffects certPEM)
      | .ok certs =>
        match certs with
        | [] => (.error .noCertificatesFound,
            keyEffects ++ parseCertChainEffects certPEM)
        | leaf :: caCerts =>
          (.ok ⟨privateKey, leaf, caCerts, password⟩,
            keyEffects ++ parseCertChainEffects certPEM ++ [.pkcs12Encode])

/-- Every event in the certificate-loop trace is an in-memory call. -/
theorem parseCertChainEffects_inMemory (certPEM : CertPEM) :
    (parseCertChainEffects certPEM).all Effect.isInMemory = true := by
  induction certPEM with
  | nil => rfl
  | cons b rest ih =>
    cases b with
    | valid c => simp_all [parseCertChainEffects, Effect.isInMemory]
    | malformed => rfl

/-- C8: `convertToPFX` is in-memory.  Its action trace consists exclusively
of in-memory library calls — it never creates a file, never reads, writes or
removes one, and never starts an external process — and its result is the
pure function of the inputs computed by `convertToPFX`. -/
theorem convertToPFX_in_memory (certPEM : CertPEM) (keyPEM : KeyPEM)
    (password : Str) :
    ((convertToPFXEffects certPEM keyPEM password).snd.all
      Effect.isInMemory = true) ∧
    (convertToPFXEffects certPEM keyPEM password).fst =
      convertToPFX certPEM keyPEM password := by
  have hchain := parseCertChainEffects_inMemory certPEM
  match keyPEM with
  | none => exact ⟨rfl, rfl⟩
  | some kb =>
    have hkey : (parsePrivateKeyEffects kb).all Effect.isInMemory = true := by
      cases kb with
      | pkcs1 k => rfl
      | pkcs8 pk => rfl
      | unparsable => rfl
    cases hpk : parsePrivateKey kb with
    | error e =>
      constructor
      · simp_all [convertToPFXEffects, hpk, Effect.isInMemory]
      · simp [convertToPFXEffects, convertToPFX, hpk]
    | ok privateKey =>
      cases hpc : parseCertChain certPEM with
      | error e =>
        constructor
        · simp_all [convertToPFXEffects, hpk, hpc, Effect.isInMemory]
        · simp [convertToPFXEffects, convertToPFX, hpk, hpc]
      | ok certs =>
        cases certs with
        | nil =>
          constructor
          · simp_all [convertToPFXEffects, hpk, hpc, Effect.isInMemory]
          · simp [convertToPFXEffects, convertToPFX, hpk, hpc]
        | cons leaf caCerts =>
          constructor
          · simp_all [convertToPFXEffects, hpk, hpc, Effect.isInMemory]
          · simp [convertToPFXEffects, convertToPFX, hpk, hpc]

/-! ## Renewal orchestrator (`processCertificates`) and scheduler (`main`)

`processCertificates` sequences expiry-check → obtain → convert → upload.
The collaborator calls it can make are recorded in a trace; the network
results of `GetCertificate`, `Obtain` and `ImportCertificate` are oracle
inputs bundled in a `CycleEnv`.  `main` registers the ACME account once in
its starting phase (exiting on failure) and then runs one cycle immediately
plus one per tick. -/

/-- A collaborator call observable in a trace. -/
inductive Call
  | getCertificate   -- azcertificates GetCertificate
  | register         -- legoClient.Registration.Register
  | obtain           -- legoClient.Certificate.Obtain
  | convert          -- the in-process convertToPFX step
  | upload           -- uploadToKeyVault / ImportCertificate
deriving DecidableEq, Repr

/-- The certificate material returned by a successful `Obtain`:
`certificates.Certificate` and `certificates.PrivateKey`. -/
structure ObtainedMaterial where
  certificate : CertPEM
  privateKey : KeyPEM

/-- Oracle inputs of one orchestrator cycle: the results the external
collaborators would return, and the current time. -/
structure CycleEnv where
  getCertResult : Except String CertDescriptor
  obtainResult : Except String ObtainedMaterial
  uploadResult : Option String
  now : Int

/-- Function `processCertificates` (orchestrator, v2.0.0 `main`): returns the cycle's
`error` result together with the trace of collaborator calls it made.  The
error from `checkIfRenewalNeeded` is logged and not propagated; a negative
renewal decision returns success immediately. -/
def processCertificates (env : CycleEnv) (pfxPassword : Str)
    (renewBeforeDays : Int) : Except String Unit × List Call :=
  if (checkIfRenewalNeeded env.getCertResult renewBeforeDays env.now).fst then
    match env.obtainResult with
    | .error e =>
      (.error ("error obtaining certificate: " ++ e), [.getCertificate, .obtain])
    | .ok material =>
      match convertToPFX material.certificate material.privateKey pfxPassword with
      | .error e =>
        (.error ("error converting to PFX: " ++ e.message),
          [.getCertificate, .obtain, .convert])
      | .ok _bundle =>
        match env.uploadResult with
        | some e =>
          (.error ("error uploading to Key Vault: " ++ e),
            [.getCertificate, .obtain, .convert, .upload])
        | none => (.ok (), [.getCertificate, .obtain, .convert, .upload])
  else
    (.ok (), [.getCertificate])

/-- The calls made by a sequence of cycles, in order (the scheduling loop
runs cycles strictly one after another). -/
def cyclesTrace (pfxPassword : Str) (renewBeforeDays : Int) :
    List CycleEnv → List Call
  | [] => []
  | env :: rest =>
    (processCertificates env pfxPassword renewBeforeDays).snd ++
      cyclesTrace pfxPassword renewBeforeDays rest

/-- The collaborator calls of a whole execution of `main` (v2.0.0): the
starting phase registers the ACME account exactly once; on registration
failure the process exits (`log.Fatalf`) before any cycle; otherwise the
scheduling loop runs its cycles.  `envs` lists the oracle inputs of the
cycles the process executes before shutdown. -/
def mainTrace (registerResult : Option String) (pfxPassword : Str)
    (renewBeforeDays : Int) (envs : List CycleEnv) : List Call :=
  match registerResult with
  | some _ => [.register]
  | none => .register :: cyclesTrace pfxPassword renewBeforeDays envs

/-- A cycle never performs an ACME account registration. -/
theorem register_not_in_cycle (env : CycleEnv) (pfxPassword : Str)
    (renewBeforeDays : Int) :
    Call.register ∉ (processCertificates env pfxPassword renewBeforeDays).snd := by
  unfold processCertificates
  cases hc : (checkIfRenewalNeeded env.getCertResult renewBeforeDays env.now).fst with
  | false => simp
  | true =>
    rw [if_pos rfl]
    cases ho : env.obtainResult with
    | error e => simp
    | ok material =>
      cases hcv : convertToPFX material.certificate material.privateKey pfxPassword with
      | error e => simp [hcv]
      | ok b =>
        cases hu : env.uploadResult with
        | some e => simp [hcv]
        | none => simp [hcv]

/-- No cycle contributes a registration call to the trace. -/
theorem register_not_in_cyclesTrace (pfxPassword : Str) (renewBeforeDays : Int)
    (envs : List CycleEnv) :
    Call.register ∉ cyclesTrace pfxPassword renewBeforeDays envs := by
  induction envs with
  | nil => simp [cyclesTrace]
  | cons env rest ih =>
    simp only [cyclesTrace, List.mem_append]
    rintro (h | h)
    · exact register_not_in_cycle env pfxPassword renewBeforeDays h
    · exact ih h

/-- C9: ACME account registration happens exactly once per process, as the
head of the execution trace (during the starting phase, before the
scheduling loop), and no renewal cycle ever performs a registration. -/
theorem register_once (registerResult : Option String) (pfxPassword : Str)
    (renewBeforeDays : Int) (envs : List CycleEnv) :
    ((mainTrace registerResult pfxPassword renewBeforeDays envs).count
      Call.register = 1) ∧
    ((mainTrace registerResult pfxPassword renewBeforeDays envs).head? =
      some Call.register) ∧
    (∀ env : CycleEnv,
      Call.register ∉ (processCertificates env pfxPassword renewBeforeDays).snd) := by
  refine ⟨?_, ?_, fun env => register_not_in_cycle env pfxPassword renewBeforeDays⟩
  · match registerResult with
    | some _ => rfl
    | none =>
      simp [mainTrace, List.count_cons,
        List.count_eq_zero.mpr
          (register_not_in_cyclesTrace pfxPassword renewBeforeDays envs)]
  · match registerResult with
    | some _ => rfl
    | none => rfl

/-- C7: the skip fast path.  When the expiry policy reports no renewal needed
(descriptor and expiry present, `now ≤ expiry − leadDays`), a cycle returns
success immediately after the metadata query, with no Obtain, Convert or
Upload call; consequently, after any successful first cycle, a second cycle
whose queried descriptor is non-expiring makes zero Obtain and Upload
calls. -/
theorem cycle_skips_when_not_due (env1 env2 : CycleEnv) (pfxPassword : Str)
    (renewBeforeDays e : Int) :
    ((checkIfRenewalNeeded env2.getCertResult renewBeforeDays env2.now).fst =
        false →
      processCertificates env2 pfxPassword renewBeforeDays =
        (.ok (), [.getCertificate])) ∧
    ((processCertificates env1 pfxPassword renewBeforeDays).fst = .ok () →
      env2.getCertResult = .ok ⟨some ⟨some e⟩⟩ →
      ¬ env2.now > addDays e (-renewBeforeDays) →
      Call.obtain ∉ (processCertificates env2 pfxPassword renewBeforeDays).snd ∧
      Call.convert ∉ (processCertificates env2 pfxPassword renewBeforeDays).snd ∧
      Call.upload ∉ (processCertificates env2 pfxPassword renewBeforeDays).snd ∧
      (processCertificates env2 pfxPassword renewBeforeDays).fst = .ok ()) := by
  constructor
  · intro hcheck
    unfold processCertificates
    simp [hcheck]
  · intro _hfirst hdesc hnotdue
    have hcheck : (checkIfRenewalNeeded env2.getCertResult renewBeforeDays
        env2.now).fst = false := by
      rw [hdesc]
      simp [checkIfRenewalNeeded, hnotdue]
    have hskip : processCertificates env2 pfxPassword renewBeforeDays =
        (.ok (), [.getCertificate]) := by
      unfold processCertificates
      simp [hcheck]
    rw [hskip]
    refine ⟨by simp, by simp, by simp, rfl⟩

/-- Witness for `cycle_skips_when_not_due`: a first cycle that renews
successfully, then a second cycle whose descriptor expires 100 days from
`now = 0` with a 30-day lead time. -/
theorem cycle_skips_when_not_due_witness :
    (processCertificates
        ⟨.error "missing", .ok ⟨[CertBlock.valid ⟨0⟩], some (.pkcs1 ⟨0⟩)⟩,
          none, 0⟩ [] 30).fst = .ok () ∧
    Call.obtain ∉ (processCertificates
        ⟨.ok ⟨some ⟨some (addDays 0 100)⟩⟩, .ok ⟨[], none⟩, none, 0⟩
        [] 30).snd ∧
    Call.upload ∉ (processCertificates
        ⟨.ok ⟨some ⟨some (addDays 0 100)⟩⟩, .ok ⟨[], none⟩, none, 0⟩
        [] 30).snd := by
  have h := cycle_skips_when_not_due
    ⟨.error "missing", .ok ⟨[CertBlock.valid ⟨0⟩], some (.pkcs1 ⟨0⟩)⟩, none, 0⟩
    ⟨.ok ⟨some ⟨some (addDays 0 100)⟩⟩, .ok ⟨[], none⟩, none, 0⟩
    [] 30 (addDays 0 100)
  have hfirst : (processCertificates
      ⟨.error "missing", .ok ⟨[CertBlock.valid ⟨0⟩], some (.pkcs1 ⟨0⟩)⟩,
        none, 0⟩ [] 30).fst = .ok () := by
    simp [processCertificates, checkIfRenewalNeeded, convertToPFX,
      parsePrivateKey, parseCertChain]
  have h2 := h.2 hfirst rfl (by decide)
  exact ⟨hfirst, h2.1, h2.2.2.1⟩

/-- C2: a metadata-query failure (query error, or descriptor with missing
attributes or expiry) makes `checkIfRenewalNeeded` report renewal-needed
together with an error, and the cycle proceeds to the Obtain step instead of
aborting. -/
theorem metadata_failure_proceeds (env : CycleEnv) (pfxPassword : Str)
    (renewBeforeDays : Int) :
    expiryOf env.getCertResult = none →
    ((checkIfRenewalNeeded env.getCertResult renewBeforeDays env.now).fst =
        true ∧
      (checkIfRenewalNeeded env.getCertResult renewBeforeDays
        env.now).snd.isSome = true ∧
      Call.obtain ∈ (processCertificates env pfxPassword renewBeforeDays).snd) := by
  intro hmissing
  have hcheck : (checkIfRenewalNeeded env.getCertResult renewBeforeDays
      env.now).fst = true ∧
      (checkIfRenewalNeeded env.getCertResult renewBeforeDays
        env.now).snd.isSome = true := by
    match henv : env.getCertResult with
    | .error e => simp [checkIfRenewalNeeded]
    | .ok cert =>
      match cert with
      | ⟨none⟩ => simp [checkIfRenewalNeeded]
      | ⟨some ⟨none⟩⟩ => simp [checkIfRenewalNeeded]
      | ⟨some ⟨some e⟩⟩ => simp [expiryOf, henv] at hmissing
  refine ⟨hcheck.1, hcheck.2, ?_⟩
  unfold processCertificates
  rw [hcheck.1, if_pos rfl]
  cases ho : env.obtainResult with
  | error e => simp
  | ok material =>
    cases hcv : convertToPFX material.certificate material.privateKey pfxPassword with
    | error e => simp [hcv]
    | ok b =>
      cases hu : env.uploadResult with
      | some e => simp [hcv]
      | none => simp [hcv]

/-- Witness for `metadata_failure_proceeds`: a failed `GetCertificate`
query. -/
theorem metadata_failure_proceeds_witness :
    expiryOf (.error "vault unreachable") = none ∧
    Call.obtain ∈ (processCertificates
      ⟨.error "vault unreachable", .error "offline", none, 0⟩ [] 30).snd := by
  refine ⟨rfl, ?_⟩
  exact (metadata_failure_proceeds
    ⟨.error "vault unreachable", .error "offline", none, 0⟩ [] 30 rfl).2.2

/-! ## Error notification (`notify.go` lines 10–64)

`sendErrorNotification` returns immediately when notifications are disabled,
rejects an incomplete SMTP configuration, and otherwise performs the
`smtp.SendMail` call, whose network outcome is the oracle `smtpResult`. -/

/-- The notification configuration (`emailConfig` in `notify.go`). -/
structure EmailConfig where
  enabled : Bool
  smtpHost : String
  smtpPort : String
  username : String
  password : String
  fromEmail : String
  toEmail : String
deriving DecidableEq, Repr

/-- Function `sendErrorNotification`: returns the Go function's `error` together with
a flag recording whether `smtp.SendMail` was invoked. -/
def sendErrorNotification (cfg : EmailConfig) (subject message : String)
    (smtpResult : Option String) : Option String × Bool :=
  if !cfg.enabled then (none, false)
  else if cfg.smtpHost = "" || cfg.username = "" || cfg.password = "" then
    (some "incomplete SMTP configuration", false)
  else
    match smtpResult with
    | some e => (some ("sending notification email: " ++ e), true)
    | none => (none, true)

/-- C10: with notifications disabled, `sendErrorNotification` returns `nil`
immediately and never attempts an SMTP send, whatever the SMTP fields hold;
and the incomplete-configuration error implies notifications were enabled. -/
theorem sendErrorNotification_disabled (cfg : EmailConfig)
    (subject message : String) (smtpResult : Option String) :
    (cfg.enabled = false →
      sendErrorNotification cfg subject message smtpResult = (none, false)) ∧
    ((sendErrorNotification cfg subject message smtpResult).fst =
        some "incomplete SMTP configuration" → cfg.enabled = true) := by
  constructor
  · intro hdis
    simp [sendErrorNotification, hdis]
  · intro hinc
    by_contra hen
    have hdis : cfg.enabled = false := by
      cases h : cfg.enabled with
      | false => rfl
      | true => exact absurd h hen
    simp [sendErrorNotification, hdis] at hinc

/-- Witness for `sendErrorNotification_disabled`: a disabled configuration
with all SMTP fields set, and an enabled one with an empty host. -/
theorem sendErrorNotification_disabled_witness :
    sendErrorNotification ⟨false, "smtp.example", "587", "user", "pw",
        "from@example", "to@example"⟩ "subj" "msg" (some "network down") =
      (none, false) ∧
    (⟨true, "", "587", "user", "pw", "from@example", "to@example"⟩ :
      EmailConfig).enabled = true := by
  constructor
  · exact (sendErrorNotification_disabled ⟨false, "smtp.example", "587",
      "user", "pw", "from@example", "to@example"⟩ "subj" "msg"
      (some "network down")).1 rfl
  · exact (sendErrorNotification_disabled ⟨true, "", "587", "user", "pw",
      "from@example", "to@example"⟩ "subj" "msg" none).2 rfl

end AcmeAzure
